import Mathlib

set_option maxRecDepth 8000

/-!
Shallow embedding of the LED-panel protocol engine of this repository.

The emulator backend is translated from `src/emulator/src/panel_emu.c`:
a circular 192-bit shift-register buffer, a selected row-pair index, and
a latched 32x32x3 framebuffer stored as a flat byte array (one byte per
colour channel, each 0 or 1).  C `int` values are embedded as `Int` where
sign matters and as `Nat` where the source keeps them non-negative; the C
expression `v & 0x0F` on a two's-complement `int` equals `Int.emod v 16`,
and C `%` / `/` (truncated) are `Int.tmod` / `Int.tdiv`.

The hardware backend is translated from `src/hardware/panel_hw.c`, which
only drives GPIO pins; the physical panel attached to those pins is not
part of the repository and is modelled from the spec where indicated.
-/

/-- Emulator state: the static variables of `panel_emu.c`.
`latchedFramebufferRgb` is the flat byte array indexed by
`(y * 32 + x) * 3 + channel`; `shiftRegisterBits` is the circular buffer
of `PANEL_SHIFT_BITS = 192` cells. -/
structure PanelState where
  latchedFramebufferRgb : Nat → Nat
  shiftRegisterBits : Nat → Nat
  shiftRegisterOldestIndex : Nat
  shiftRegisterBitCount : Nat
  selectedRowPairIndex : Int
  latchLineIsLow : Bool
  displayIsEnabled : Bool

/-- `shiftRegisterPushBit` from `panel_emu.c`: normalise the bit to 0/1,
then either append (buffer not yet full) or overwrite the oldest bit and
advance the oldest pointer (buffer full). -/
def shiftRegisterPushBit (s : PanelState) (bitValue : Nat) : PanelState :=
  let bitValue := if bitValue ≠ 0 then 1 else 0
  if s.shiftRegisterBitCount < 192 then
    let writeIndex := (s.shiftRegisterOldestIndex + s.shiftRegisterBitCount) % 192
    { s with
      shiftRegisterBits := Function.update s.shiftRegisterBits writeIndex bitValue
      shiftRegisterBitCount := s.shiftRegisterBitCount + 1 }
  else
    let newOldest := (s.shiftRegisterOldestIndex + 1) % 192
    let writeIndex := (newOldest + 192 - 1) % 192
    { s with
      shiftRegisterOldestIndex := newOldest
      shiftRegisterBits := Function.update s.shiftRegisterBits writeIndex bitValue }

/-- `shiftRegisterGetBit` from `panel_emu.c`: logical index 0 is the oldest
stored bit, 191 the newest; the C code masks the stored byte with `& 1u`. -/
def shiftRegisterGetBit (s : PanelState) (logicalIndex : Nat) : Nat :=
  let physicalIndex := (s.shiftRegisterOldestIndex + logicalIndex) % 192
  s.shiftRegisterBits physicalIndex % 2

/-- One iteration of the `for (x …)` loop in
`commitShiftRegisterToFramebufferForSelectedRow`, abstracted over the
bit-getter `g` (instantiated with `shiftRegisterGetBit s` for the
emulator): reads the six plane bits for column `x` and writes the six
framebuffer bytes of the top and bottom rows. -/
def commitBody (g : Nat → Nat) (topRowY bottomRowY x : Nat) (fb : Nat → Nat) : Nat → Nat :=
  let topR := g (0 * 32 + x)
  let topG := g (1 * 32 + x)
  let topB := g (2 * 32 + x)
  let bottomR := g (3 * 32 + x)
  let bottomG := g (4 * 32 + x)
  let bottomB := g (5 * 32 + x)
  let topPixelIndex := (topRowY * 32 + x) * 3
  let bottomPixelIndex := (bottomRowY * 32 + x) * 3
  Function.update (Function.update (Function.update (Function.update (Function.update
    (Function.update fb (topPixelIndex + 0) topR) (topPixelIndex + 1) topG)
    (topPixelIndex + 2) topB) (bottomPixelIndex + 0) bottomR)
    (bottomPixelIndex + 1) bottomG) (bottomPixelIndex + 2) bottomB

/-- The `for (x = 0; x < 32; x++)` loop of the commit function:
`commitLoop g top bottom fb n` is the framebuffer after the iterations
`x = 0 … n-1` have run. -/
def commitLoop (g : Nat → Nat) (topRowY bottomRowY : Nat) (fb : Nat → Nat) : Nat → Nat → Nat
  | 0 => fb
  | n + 1 => commitBody g topRowY bottomRowY n (commitLoop g topRowY bottomRowY fb n)

/-- `commitShiftRegisterToFramebufferForSelectedRow` from `panel_emu.c`:
masks the selected row-pair index with `& 0x0F`, then runs the column loop
writing rows `rowPair` and `rowPair + 16`. -/
def commitShiftRegisterToFramebufferForSelectedRow (s : PanelState) : PanelState :=
  let rowPair := (Int.emod s.selectedRowPairIndex 16).toNat
  let topRowY := rowPair
  let bottomRowY := rowPair + 16
  { s with
    latchedFramebufferRgb :=
      commitLoop (shiftRegisterGetBit s) topRowY bottomRowY s.latchedFramebufferRgb 32 }

/-- `setupPanel` from `panel_emu.c`: zero framebuffer, zero shift register
treated as fully populated (`shiftRegisterBitCount = 192`), row 0 selected. -/
def setupPanel : PanelState where
  latchedFramebufferRgb := fun _ => 0
  shiftRegisterBits := fun _ => 0
  shiftRegisterOldestIndex := 0
  shiftRegisterBitCount := 192
  selectedRowPairIndex := 0
  latchLineIsLow := false
  displayIsEnabled := true

/-- `PrepareLatch` from `panel_emu.c`. -/
def PrepareLatch (s : PanelState) : PanelState :=
  { s with latchLineIsLow := true, displayIsEnabled := false }

/-- `LatchRegister` from `panel_emu.c`: raise the latch, mark the display
enabled, and commit the shifted bits to the framebuffer. -/
def LatchRegister (s : PanelState) : PanelState :=
  commitShiftRegisterToFramebufferForSelectedRow
    { s with latchLineIsLow := false, displayIsEnabled := true }

/-- `SelectRow` from `panel_emu.c`: stores `(row - 1) & 0x0F`;  on a
two's-complement `int` this equals the Euclidean remainder modulo 16. -/
def SelectRow (s : PanelState) (row : Int) : PanelState :=
  { s with selectedRowPairIndex := Int.emod (row - 1) 16 }

/-- `PushBit` from `panel_emu.c`: pushes `(uint8_t)(onoff ? 1 : 0)`. -/
def PushBit (s : PanelState) (onoff : Int) : PanelState :=
  shiftRegisterPushBit s (if onoff ≠ 0 then 1 else 0)

/-- The `for (bitIndex …)` loop of `ClearRow`: push `n` zero bits. -/
def clearRowLoop (s : PanelState) : Nat → PanelState
  | 0 => s
  | n + 1 => clearRowLoop (PushBit s 0) n

/-- `ClearRow` from `panel_emu.c`: select the row, then push 192 zeros. -/
def ClearRow (s : PanelState) (row : Int) : PanelState :=
  clearRowLoop (SelectRow s row) 192

/-- Driver-level helper: push a whole list of bit arguments in order
(each element fed to `PushBit`). -/
def pushBits (s : PanelState) (bs : List Int) : PanelState :=
  bs.foldl PushBit s

/-- Driver-level helper: feed a list of raw byte values directly to
`shiftRegisterPushBit` in order. -/
def pushRaw (s : PanelState) (bs : List Nat) : PanelState :=
  bs.foldl shiftRegisterPushBit s

/-! ### Shift-register buffer lemmas -/

/-- A full-buffer push (the branch taken for every state reachable after
`setupPanel`) leaves all fields but the buffer and the oldest pointer
unchanged. -/
theorem pushBit_full (s : PanelState) (b : Nat) (h : ¬ s.shiftRegisterBitCount < 192) :
    shiftRegisterPushBit s b =
      { s with
        shiftRegisterOldestIndex := (s.shiftRegisterOldestIndex + 1) % 192
        shiftRegisterBits := Function.update s.shiftRegisterBits
          (((s.shiftRegisterOldestIndex + 1) % 192 + 192 - 1) % 192)
          (if b ≠ 0 then 1 else 0) } := by
  simp [shiftRegisterPushBit, h]

/-- Reading after a full-buffer push: index 191 sees the new bit, every
other index sees what was one position newer before the push. -/
theorem getBit_pushBit_full (s : PanelState) (b : Nat)
    (hc : ¬ s.shiftRegisterBitCount < 192) (ho : s.shiftRegisterOldestIndex < 192)
    (i : Nat) (hi : i < 192) :
    shiftRegisterGetBit (shiftRegisterPushBit s b) i =
      if i = 191 then (if b ≠ 0 then 1 else 0) else shiftRegisterGetBit s (i + 1) := by
  rw [pushBit_full s b hc]
  unfold shiftRegisterGetBit
  simp only [Function.update_apply]
  by_cases h191 : i = 191
  · subst h191
    have hidx : ((s.shiftRegisterOldestIndex + 1) % 192 + 191) % 192 =
        ((s.shiftRegisterOldestIndex + 1) % 192 + 192 - 1) % 192 := by omega
    rw [if_pos hidx, if_pos rfl]
    by_cases hb : b = 0 <;> simp [hb]
  · have hne : ((s.shiftRegisterOldestIndex + 1) % 192 + i) % 192 ≠
        ((s.shiftRegisterOldestIndex + 1) % 192 + 192 - 1) % 192 := by omega
    rw [if_neg hne, if_neg h191]
    have heq : ((s.shiftRegisterOldestIndex + 1) % 192 + i) % 192 =
        (s.shiftRegisterOldestIndex + (i + 1)) % 192 := by omega
    rw [heq]

/-- A push never changes the framebuffer, the selected row, or the latch
flags. -/
theorem pushBit_other_fields (s : PanelState) (b : Nat) :
    (shiftRegisterPushBit s b).latchedFramebufferRgb = s.latchedFramebufferRgb ∧
    (shiftRegisterPushBit s b).selectedRowPairIndex = s.selectedRowPairIndex ∧
    (shiftRegisterPushBit s b).latchLineIsLow = s.latchLineIsLow ∧
    (shiftRegisterPushBit s b).displayIsEnabled = s.displayIsEnabled := by
  unfold shiftRegisterPushBit
  by_cases h : s.shiftRegisterBitCount < 192 <;> simp [h]

/-- A push on a full buffer keeps it full and keeps the oldest pointer in
range. -/
theorem pushBit_inv (s : PanelState) (b : Nat)
    (hc : s.shiftRegisterBitCount = 192) (ho : s.shiftRegisterOldestIndex < 192) :
    (shiftRegisterPushBit s b).shiftRegisterBitCount = 192 ∧
    (shiftRegisterPushBit s b).shiftRegisterOldestIndex < 192 := by
  rw [pushBit_full s b (by omega)]
  refine ⟨hc, ?_⟩
  show (s.shiftRegisterOldestIndex + 1) % 192 < 192
  omega

/-- Characterisation of the buffer after pushing a whole list of raw bytes
onto a full buffer: logical position `i` holds the old bit `i + |bs|`
positions from the oldest if the pushes did not reach it, and otherwise the
normalised pushed byte `bs[i + |bs| - 192]`. -/
theorem getBit_pushRaw (bs : List Nat) (s : PanelState)
    (hc : s.shiftRegisterBitCount = 192) (ho : s.shiftRegisterOldestIndex < 192)
    (i : Nat) (hi : i < 192) :
    shiftRegisterGetBit (pushRaw s bs) i =
      if i + bs.length < 192 then shiftRegisterGetBit s (i + bs.length)
      else (if bs.getD (i + bs.length - 192) 0 ≠ 0 then 1 else 0) := by
  induction bs generalizing s i with
  | nil => simp [pushRaw, hi]
  | cons b bs ih =>
    have hinv := pushBit_inv s b hc ho
    have hstep : pushRaw s (b :: bs) = pushRaw (shiftRegisterPushBit s b) bs := rfl
    rw [hstep, ih (shiftRegisterPushBit s b) hinv.1 hinv.2 i hi]
    simp only [List.length_cons]
    by_cases hlt : i + bs.length < 192
    · rw [if_pos hlt, getBit_pushBit_full s b (by omega) ho (i + bs.length) hlt]
      by_cases h191 : i + bs.length = 191
      · have hge : ¬ i + (bs.length + 1) < 192 := by omega
        have h0 : i + (bs.length + 1) - 192 = 0 := by omega
        rw [if_pos h191, if_neg hge]
        simp only [h0, List.getD_cons_zero]
      · have hlt2 : i + (bs.length + 1) < 192 := by omega
        have hadd : i + (bs.length + 1) = i + bs.length + 1 := by omega
        rw [if_neg h191, if_pos hlt2, hadd]
    · have hge : ¬ i + (bs.length + 1) < 192 := by omega
      have hsucc : i + (bs.length + 1) - 192 = (i + bs.length - 192) + 1 := by omega
      rw [if_neg hlt, if_neg hge]
      simp only [hsucc, List.getD_cons_succ]

/-- Pushing a list of raw bytes changes neither the framebuffer nor the
selected row. -/
theorem pushRaw_other_fields (bs : List Nat) (s : PanelState) :
    (pushRaw s bs).latchedFramebufferRgb = s.latchedFramebufferRgb ∧
    (pushRaw s bs).selectedRowPairIndex = s.selectedRowPairIndex := by
  induction bs generalizing s with
  | nil => exact ⟨rfl, rfl⟩
  | cons b bs ih =>
    have h := pushBit_other_fields s b
    have h2 := ih (shiftRegisterPushBit s b)
    exact ⟨h2.1.trans h.1, h2.2.trans h.2.1⟩

/-- Pushing a list of raw bytes preserves fullness. -/
theorem pushRaw_inv (bs : List Nat) (s : PanelState)
    (hc : s.shiftRegisterBitCount = 192) (ho : s.shiftRegisterOldestIndex < 192) :
    (pushRaw s bs).shiftRegisterBitCount = 192 ∧
    (pushRaw s bs).shiftRegisterOldestIndex < 192 := by
  induction bs generalizing s with
  | nil => exact ⟨hc, ho⟩
  | cons b bs ih =>
    have hinv := pushBit_inv s b hc ho
    exact ih (shiftRegisterPushBit s b) hinv.1 hinv.2

/-- Driver-level pushes are raw pushes of the normalised arguments. -/
theorem pushBits_eq_pushRaw (bs : List Int) (s : PanelState) :
    pushBits s bs = pushRaw s (bs.map fun v => if v ≠ 0 then 1 else 0) := by
  induction bs generalizing s with
  | nil => rfl
  | cons b bs ih =>
    have : pushBits s (b :: bs) = pushBits (PushBit s b) bs := rfl
    rw [this, ih]
    rfl

/-- Characterisation of the buffer after driver-level pushes onto a full
buffer. -/
theorem getBit_pushBits (bs : List Int) (s : PanelState)
    (hc : s.shiftRegisterBitCount = 192) (ho : s.shiftRegisterOldestIndex < 192)
    (i : Nat) (hi : i < 192) :
    shiftRegisterGetBit (pushBits s bs) i =
      if i + bs.length < 192 then shiftRegisterGetBit s (i + bs.length)
      else (if bs.getD (i + bs.length - 192) 0 ≠ 0 then 1 else 0) := by
  rw [pushBits_eq_pushRaw, getBit_pushRaw _ s hc ho i hi]
  simp only [List.length_map]
  by_cases hlt : i + bs.length < 192
  · rw [if_pos hlt, if_pos hlt]
  · rw [if_neg hlt, if_neg hlt]
    have hk : i + bs.length - 192 < bs.length := by omega
    rw [List.getD_eq_getElem _ _ (by simpa using hk), List.getD_eq_getElem _ _ hk]
    simp only [List.getElem_map]
    by_cases hb : bs[i + bs.length - 192] = 0 <;> simp [hb]

/-! ### Commit-loop lemmas -/

/-- Pointwise view of one loop iteration: the six written bytes, in the
order of the six `Function.update`s, everything else untouched. -/
theorem commitBody_apply (g : Nat → Nat) (top bottom x : Nat) (fb : Nat → Nat) (i : Nat) :
    commitBody g top bottom x fb i =
      if i = (bottom * 32 + x) * 3 + 2 then g (5 * 32 + x)
      else if i = (bottom * 32 + x) * 3 + 1 then g (4 * 32 + x)
      else if i = (bottom * 32 + x) * 3 + 0 then g (3 * 32 + x)
      else if i = (top * 32 + x) * 3 + 2 then g (2 * 32 + x)
      else if i = (top * 32 + x) * 3 + 1 then g (1 * 32 + x)
      else if i = (top * 32 + x) * 3 + 0 then g (0 * 32 + x)
      else fb i := by
  simp only [commitBody, Function.update_apply]

/-- After the loop has processed columns `0 … n-1`, a top-row byte written
at column `x < n` and channel `c` holds the bit of plane `c` at offset `x`. -/
theorem commitLoop_top (g : Nat → Nat) (top : Nat) (fb : Nat → Nat) :
    ∀ n, n ≤ 32 → ∀ x c, x < n → c < 3 →
      commitLoop g top (top + 16) fb n ((top * 32 + x) * 3 + c) = g (c * 32 + x) := by
  intro n
  induction n with
  | zero => intro _ x c hx _; omega
  | succ n ih =>
    intro hn x c hx hc
    simp only [commitLoop]
    rw [commitBody_apply]
    split_ifs with h1 h2 h3 h4 h5 h6
    · exfalso; omega
    · exfalso; omega
    · exfalso; omega
    · congr 1; omega
    · congr 1; omega
    · congr 1; omega
    · exact ih (by omega) x c (by omega) hc

/-- Same for a bottom-row byte: channel `c` of column `x` holds the bit of
plane `3 + c` at offset `x`. -/
theorem commitLoop_bottom (g : Nat → Nat) (top : Nat) (fb : Nat → Nat) :
    ∀ n, n ≤ 32 → ∀ x c, x < n → c < 3 →
      commitLoop g top (top + 16) fb n (((top + 16) * 32 + x) * 3 + c) = g ((3 + c) * 32 + x) := by
  intro n
  induction n with
  | zero => intro _ x c hx _; omega
  | succ n ih =>
    intro hn x c hx hc
    simp only [commitLoop]
    rw [commitBody_apply]
    split_ifs with h1 h2 h3 h4 h5 h6
    · congr 1; omega
    · congr 1; omega
    · congr 1; omega
    · exfalso; omega
    · exfalso; omega
    · exfalso; omega
    · exact ih (by omega) x c (by omega) hc

/-- A byte that is none of the written positions is untouched by the loop. -/
theorem commitLoop_unchanged (g : Nat → Nat) (top : Nat) (fb : Nat → Nat) :
    ∀ n, n ≤ 32 → ∀ i,
      (∀ x, x < n → ∀ c, c < 3 →
        i ≠ (top * 32 + x) * 3 + c ∧ i ≠ ((top + 16) * 32 + x) * 3 + c) →
      commitLoop g top (top + 16) fb n i = fb i := by
  intro n
  induction n with
  | zero => intro _ i _; rfl
  | succ n ih =>
    intro hn i h
    simp only [commitLoop]
    rw [commitBody_apply]
    split_ifs with h1 h2 h3 h4 h5 h6
    · exact absurd h1 (h n (by omega) 2 (by omega)).2
    · exact absurd h2 (h n (by omega) 1 (by omega)).2
    · exact absurd h3 (h n (by omega) 0 (by omega)).2
    · exact absurd h4 (h n (by omega) 2 (by omega)).1
    · exact absurd h5 (h n (by omega) 1 (by omega)).1
    · exact absurd h6 (h n (by omega) 0 (by omega)).1
    · exact ih (by omega) i (fun x hx c hc => h x (by omega) c hc)

/-- The loop only looks at the getter on indices `0 … 191` and at the
incoming framebuffer: equal inputs give pointwise-equal outputs. -/
theorem commitLoop_congr (g₁ g₂ : Nat → Nat) (top bottom : Nat) (fb₁ fb₂ : Nat → Nat)
    (hg : ∀ j, j < 192 → g₁ j = g₂ j) (hfb : ∀ i, fb₁ i = fb₂ i) :
    ∀ n, n ≤ 32 → ∀ i, commitLoop g₁ top bottom fb₁ n i = commitLoop g₂ top bottom fb₂ n i := by
  intro n
  induction n with
  | zero => intro _ i; exact hfb i
  | succ n ih =>
    intro hn i
    simp only [commitLoop]
    rw [commitBody_apply, commitBody_apply]
    split_ifs
    · exact hg _ (by omega)
    · exact hg _ (by omega)
    · exact hg _ (by omega)
    · exact hg _ (by omega)
    · exact hg _ (by omega)
    · exact hg _ (by omega)
    · exact ih (by omega) i

/-- `LatchRegister` leaves the shift register and row selection alone and
replaces the framebuffer by the committed decode. -/
theorem LatchRegister_fb (s : PanelState) :
    (LatchRegister s).latchedFramebufferRgb =
      commitLoop (shiftRegisterGetBit s) (Int.toNat (Int.emod s.selectedRowPairIndex 16))
        (Int.toNat (Int.emod s.selectedRowPairIndex 16) + 16) s.latchedFramebufferRgb 32 := rfl

/-- `LatchRegister` does not touch the buffer or the selected row. -/
theorem LatchRegister_other_fields (s : PanelState) :
    (LatchRegister s).shiftRegisterBits = s.shiftRegisterBits ∧
    (LatchRegister s).shiftRegisterOldestIndex = s.shiftRegisterOldestIndex ∧
    (LatchRegister s).shiftRegisterBitCount = s.shiftRegisterBitCount ∧
    (LatchRegister s).selectedRowPairIndex = s.selectedRowPairIndex :=
  ⟨rfl, rfl, rfl, rfl⟩

/-- The selected row-pair index stored by the emulator is always in
`[0, 16)`, so masking it with `& 0x0F` in the commit recovers it. -/
theorem emod_sixteen_lt (v : Int) : Int.toNat (Int.emod v 16) < 16 := by
  have h1 : 0 ≤ Int.emod v 16 := Int.emod_nonneg v (by norm_num)
  have h2 : Int.emod v 16 < 16 := Int.emod_lt_of_pos v (by norm_num)
  omega

/-- Per-index view of the whole committed frame: byte `i` of the result is
a decoded plane bit when `i` lies in row `top` or row `top + 16`, and the
old byte otherwise. -/
theorem commitLoop_full_apply (g : Nat → Nat) (top : Nat) (fb : Nat → Nat) (i : Nat) :
    commitLoop g top (top + 16) fb 32 i =
      if i / 96 = top then g ((i % 3) * 32 + (i % 96) / 3)
      else if i / 96 = top + 16 then g ((3 + i % 3) * 32 + (i % 96) / 3)
      else fb i := by
  by_cases h1 : i / 96 = top
  · have hi : i = (top * 32 + (i % 96) / 3) * 3 + i % 3 := by omega
    rw [if_pos h1]
    conv_lhs => rw [hi]
    exact commitLoop_top g top fb 32 le_rfl ((i % 96) / 3) (i % 3) (by omega) (by omega)
  · by_cases h2 : i / 96 = top + 16
    · have hi : i = ((top + 16) * 32 + (i % 96) / 3) * 3 + i % 3 := by omega
      rw [if_neg h1, if_pos h2]
      conv_lhs => rw [hi]
      exact commitLoop_bottom g top fb 32 le_rfl ((i % 96) / 3) (i % 3) (by omega) (by omega)
    · rw [if_neg h1, if_neg h2]
      refine commitLoop_unchanged g top fb 32 le_rfl i ?_
      intro x hx c hc
      constructor
      · intro hEq; exact h1 (by omega)
      · intro hEq; exact h2 (by omega)

/-- The `ClearRow` loop is just a driver-level push of `n` zeros. -/
theorem clearRowLoop_eq_pushBits (n : Nat) : ∀ s : PanelState,
    clearRowLoop s n = pushBits s (List.replicate n 0) := by
  induction n with
  | zero => intro s; rfl
  | succ n ih =>
    intro s
    rw [List.replicate_succ]
    calc clearRowLoop s (n + 1) = clearRowLoop (PushBit s 0) n := rfl
      _ = pushBits (PushBit s 0) (List.replicate n 0) := ih (PushBit s 0)
      _ = pushBits s (0 :: List.replicate n 0) := rfl

/-- Driver-level pushes do not touch the framebuffer or the row selection. -/
theorem pushBits_other_fields (bs : List Int) (s : PanelState) :
    (pushBits s bs).latchedFramebufferRgb = s.latchedFramebufferRgb ∧
    (pushBits s bs).selectedRowPairIndex = s.selectedRowPairIndex := by
  rw [pushBits_eq_pushRaw]
  exact pushRaw_other_fields _ s

/-- Driver-level pushes preserve fullness. -/
theorem pushBits_inv (bs : List Int) (s : PanelState)
    (hc : s.shiftRegisterBitCount = 192) (ho : s.shiftRegisterOldestIndex < 192) :
    (pushBits s bs).shiftRegisterBitCount = 192 ∧
    (pushBits s bs).shiftRegisterOldestIndex < 192 := by
  rw [pushBits_eq_pushRaw]
  exact pushRaw_inv _ s hc ho

/-- Pushing raw bytes onto a full buffer keeps the bit count at 192, with
no assumption on the oldest pointer. -/
theorem pushRaw_count (bs : List Nat) (s : PanelState) (hc : s.shiftRegisterBitCount = 192) :
    (pushRaw s bs).shiftRegisterBitCount = 192 := by
  induction bs generalizing s with
  | nil => exact hc
  | cons b bs ih =>
    have h1 : (shiftRegisterPushBit s b).shiftRegisterBitCount = 192 := by
      rw [pushBit_full s b (by omega)]
      exact hc
    exact ih _ h1

/-! ### Claim theorems -/

/-- C1: with RowAddress `r ∈ [0,16)` selected, `LatchRegister` decodes the
192 buffered bits as six consecutive 32-bit planes in push order
`[topR, topG, topB, bottomR, bottomG, bottomB]`: for every column `x` and
channel `c`, `FrameBuffer[r][x]` channel `c` comes from plane `c` at
offset `x`, and `FrameBuffer[r+16][x]` channel `c` from plane `3 + c` at
offset `x`. -/
theorem C1_latch_decodes_planes (s : PanelState) (r : Nat) (hr : r < 16)
    (hsel : s.selectedRowPairIndex = (r : Int)) (x : Nat) (hx : x < 32) (c : Nat) (hc : c < 3) :
    (LatchRegister s).latchedFramebufferRgb ((r * 32 + x) * 3 + c) =
      shiftRegisterGetBit s (c * 32 + x) ∧
    (LatchRegister s).latchedFramebufferRgb (((r + 16) * 32 + x) * 3 + c) =
      shiftRegisterGetBit s ((3 + c) * 32 + x) := by
  have hmod : Int.toNat (Int.emod s.selectedRowPairIndex 16) = r := by
    rw [hsel]
    show ((r : Int) % 16).toNat = r
    omega
  rw [LatchRegister_fb, hmod]
  exact ⟨commitLoop_top _ r _ 32 le_rfl x c hx hc,
    commitLoop_bottom _ r _ 32 le_rfl x c hx hc⟩

/-- Witness for C1 at the initial state, row 0, column 0, channel 0. -/
theorem C1_witness :
    (LatchRegister setupPanel).latchedFramebufferRgb ((0 * 32 + 0) * 3 + 0) =
      shiftRegisterGetBit setupPanel (0 * 32 + 0) ∧
    (LatchRegister setupPanel).latchedFramebufferRgb (((0 + 16) * 32 + 0) * 3 + 0) =
      shiftRegisterGetBit setupPanel ((3 + 0) * 32 + 0) :=
  C1_latch_decodes_planes setupPanel 0 (by decide) (by decide) 0 (by decide) 0 (by decide)

/-- C2: starting from the initialised state, `get(191)` is the most
recently pushed bit (normalised), and `get(0)` is the bit pushed 192
pushes ago, or the initial zero when fewer than 192 bits were pushed. -/
theorem C2_get_newest_oldest (bs : List Nat) :
    (∀ h : bs ≠ [], shiftRegisterGetBit (pushRaw setupPanel bs) 191 =
      (if bs.getLast h ≠ 0 then 1 else 0)) ∧
    shiftRegisterGetBit (pushRaw setupPanel bs) 0 =
      (if 192 ≤ bs.length then (if bs.getD (bs.length - 192) 0 ≠ 0 then 1 else 0) else 0) := by
  have hinit : ∀ j, shiftRegisterGetBit setupPanel j = 0 := fun j => rfl
  constructor
  · intro h
    rw [getBit_pushRaw bs setupPanel rfl (by decide) 191 (by decide)]
    have hlen : bs.length ≠ 0 := by
      intro h0
      exact h (List.eq_nil_of_length_eq_zero h0)
    have hge : ¬ 191 + bs.length < 192 := by omega
    rw [if_neg hge]
    have h1 : 191 + bs.length - 192 = bs.length - 1 := by omega
    simp only [h1]
    have h2 : bs.getD (bs.length - 1) 0 = bs.getLast h := by
      rw [List.getD_eq_getElem bs 0 (by omega), List.getLast_eq_getElem]
    rw [h2]
  · rw [getBit_pushRaw bs setupPanel rfl (by decide) 0 (by decide)]
    by_cases hlen : 192 ≤ bs.length
    · have hge : ¬ 0 + bs.length < 192 := by omega
      rw [if_neg hge, if_pos hlen]
      have h1 : 0 + bs.length - 192 = bs.length - 192 := by omega
      simp only [h1]
    · have hlt : 0 + bs.length < 192 := by omega
      rw [if_pos hlt, if_neg hlen, hinit]

/-- Witness for C2 with the single push of the raw byte 5. -/
theorem C2_witness :
    shiftRegisterGetBit (pushRaw setupPanel [5]) 191 = 1 ∧
    shiftRegisterGetBit (pushRaw setupPanel [5]) 0 = 0 := by
  have h := C2_get_newest_oldest [5]
  refine ⟨?_, ?_⟩
  · have h1 := h.1 (by decide)
    simpa using h1
  · have h2 := h.2
    simpa using h2

/-- C4 fails on the code: `SelectRow(0)` stores `(0 - 1) & 0x0F = 15`, not
the RowAddress 0 the claim asserts. -/
theorem C4_counterexample : (SelectRow setupPanel 0).selectedRowPairIndex ≠ 0 := by
  show Int.emod (0 - 1) 16 ≠ 0
  decide

/-- C4 (amended): `SelectRow(17)` resolves to RowAddress 0, but
`SelectRow(0)` resolves to RowAddress 15, since `(0 - 1) mod 16 = 15`. -/
theorem C4_amended_boundary (s : PanelState) :
    (SelectRow s 0).selectedRowPairIndex = 15 ∧
    (SelectRow s 17).selectedRowPairIndex = 0 :=
  ⟨show Int.emod (0 - 1) 16 = 15 by decide, show Int.emod (17 - 1) 16 = 0 by decide⟩

/-- C5: a `LatchRegister` with RowAddress `r` selected leaves every
framebuffer byte outside rows `r` and `r + 16` unchanged (byte `i` lies in
row `i / 96`). -/
theorem C5_latch_touches_only_row_pair (s : PanelState) (r : Nat) (hr : r < 16)
    (hsel : s.selectedRowPairIndex = (r : Int)) (i : Nat)
    (htop : i / 96 ≠ r) (hbot : i / 96 ≠ r + 16) :
    (LatchRegister s).latchedFramebufferRgb i = s.latchedFramebufferRgb i := by
  have hmod : Int.toNat (Int.emod s.selectedRowPairIndex 16) = r := by
    rw [hsel]
    show ((r : Int) % 16).toNat = r
    omega
  rw [LatchRegister_fb, hmod, commitLoop_full_apply, if_neg htop, if_neg hbot]

/-- Witness for C5: byte 480 (row 5) is untouched by a latch at row 0. -/
theorem C5_witness :
    (LatchRegister setupPanel).latchedFramebufferRgb 480 =
      setupPanel.latchedFramebufferRgb 480 :=
  C5_latch_touches_only_row_pair setupPanel 0 (by decide) (by decide) 480 (by decide) (by decide)

/-- C6: after `setupPanel` the buffer holds exactly 192 bits, all zero,
and every protocol operation preserves the count of 192 (so the buffer is
never empty). -/
theorem C6_buffer_always_full :
    setupPanel.shiftRegisterBitCount = 192 ∧
    (∀ i, setupPanel.shiftRegisterBits i = 0) ∧
    (∀ s : PanelState, s.shiftRegisterBitCount = 192 →
      (∀ onoff : Int, (PushBit s onoff).shiftRegisterBitCount = 192) ∧
      (∀ row : Int, (SelectRow s row).shiftRegisterBitCount = 192) ∧
      (PrepareLatch s).shiftRegisterBitCount = 192 ∧
      (LatchRegister s).shiftRegisterBitCount = 192 ∧
      (∀ row : Int, (ClearRow s row).shiftRegisterBitCount = 192)) := by
  refine ⟨rfl, fun i => rfl, fun s hc => ⟨?_, fun row => hc, hc, hc, ?_⟩⟩
  · intro onoff
    rw [PushBit, pushBit_full s _ (by omega)]
    exact hc
  · intro row
    rw [ClearRow, clearRowLoop_eq_pushBits, pushBits_eq_pushRaw]
    exact pushRaw_count _ _ hc

/-- Witness for C6: a full `ClearRow` from the initial state keeps the
count at 192. -/
theorem C6_witness : (ClearRow setupPanel 3).shiftRegisterBitCount = 192 :=
  (C6_buffer_always_full.2.2 setupPanel rfl).2.2.2.2 3

/-- C7: a second `LatchRegister` immediately after a first (no pushes, no
row change in between) leaves the framebuffer byte-for-byte as the first
call produced it. -/
theorem C7_latch_idempotent (s : PanelState) (i : Nat) :
    (LatchRegister (LatchRegister s)).latchedFramebufferRgb i =
      (LatchRegister s).latchedFramebufferRgb i := by
  rw [LatchRegister_fb (LatchRegister s)]
  have hsel : (LatchRegister s).selectedRowPairIndex = s.selectedRowPairIndex := rfl
  rw [hsel]
  rw [commitLoop_congr (shiftRegisterGetBit (LatchRegister s)) (shiftRegisterGetBit s) _ _
    ((LatchRegister s).latchedFramebufferRgb) ((LatchRegister s).latchedFramebufferRgb)
    (fun j _ => rfl) (fun _ => rfl) 32 le_rfl i]
  rw [LatchRegister_fb s]
  rw [commitLoop_full_apply, commitLoop_full_apply]
  split_ifs <;> rfl

/-- Reference decode, stated from the spec's words (§8 Overflow: "a direct
encode using only the final 192 pushed bits"): byte `i` in row `r` takes
the bit of plane `i % 3` at column `(i % 96) / 3` of the given payload,
byte `i` in row `r + 16` the bit of plane `3 + i % 3`, and every other
byte keeps the previous framebuffer value.  A pushed value counts as an
on-bit exactly when it is nonzero, as in `PushBit`. -/
def directDecode (bits : List Int) (r : Nat) (fb : Nat → Nat) : Nat → Nat := fun i =>
  if i / 96 = r then (if bits.getD ((i % 3) * 32 + (i % 96) / 3) 0 ≠ 0 then 1 else 0)
  else if i / 96 = r + 16 then (if bits.getD ((3 + i % 3) * 32 + (i % 96) / 3) 0 ≠ 0 then 1 else 0)
  else fb i

/-- C3: pushing `192 + k` bits and then latching commits exactly the
direct decode of the final 192 pushed bits — independent of `k` and of
the buffer contents before those pushes (the right-hand side mentions
neither). -/
theorem C3_overflow_uses_final_192 (s : PanelState)
    (hc : s.shiftRegisterBitCount = 192) (ho : s.shiftRegisterOldestIndex < 192)
    (r : Nat) (hr : r < 16) (hsel : s.selectedRowPairIndex = (r : Int))
    (k : Nat) (bs : List Int) (hlen : bs.length = 192 + k) (i : Nat) :
    (LatchRegister (pushBits s bs)).latchedFramebufferRgb i =
      directDecode (List.drop k bs) r s.latchedFramebufferRgb i := by
  have hselP : (pushBits s bs).selectedRowPairIndex = (r : Int) := by
    rw [(pushBits_other_fields bs s).2, hsel]
  have hfbP : (pushBits s bs).latchedFramebufferRgb = s.latchedFramebufferRgb :=
    (pushBits_other_fields bs s).1
  have hmod : Int.toNat (Int.emod (pushBits s bs).selectedRowPairIndex 16) = r := by
    rw [hselP]
    show ((r : Int) % 16).toNat = r
    omega
  rw [LatchRegister_fb, hmod, hfbP, commitLoop_full_apply]
  simp only [directDecode]
  by_cases h1 : i / 96 = r
  · rw [if_pos h1, if_pos h1]
    have hj : (i % 3) * 32 + (i % 96) / 3 < 192 := by omega
    rw [getBit_pushBits bs s hc ho _ hj]
    have hge : ¬ (i % 3) * 32 + (i % 96) / 3 + bs.length < 192 := by omega
    rw [if_neg hge]
    have hidx : (i % 3) * 32 + (i % 96) / 3 + bs.length - 192 =
        k + ((i % 3) * 32 + (i % 96) / 3) := by omega
    simp only [hidx]
    have hdrop : (List.drop k bs).getD ((i % 3) * 32 + (i % 96) / 3) 0 =
        bs.getD (k + ((i % 3) * 32 + (i % 96) / 3)) 0 := by
      simp [List.getD_eq_getElem?_getD, List.getElem?_drop]
    rw [hdrop]
  · by_cases h2 : i / 96 = r + 16
    · rw [if_neg h1, if_neg h1, if_pos h2, if_pos h2]
      have hj : (3 + i % 3) * 32 + (i % 96) / 3 < 192 := by omega
      rw [getBit_pushBits bs s hc ho _ hj]
      have hge : ¬ (3 + i % 3) * 32 + (i % 96) / 3 + bs.length < 192 := by omega
      rw [if_neg hge]
      have hidx : (3 + i % 3) * 32 + (i % 96) / 3 + bs.length - 192 =
          k + ((3 + i % 3) * 32 + (i % 96) / 3) := by omega
      simp only [hidx]
      have hdrop : (List.drop k bs).getD ((3 + i % 3) * 32 + (i % 96) / 3) 0 =
          bs.getD (k + ((3 + i % 3) * 32 + (i % 96) / 3)) 0 := by
        simp [List.getD_eq_getElem?_getD, List.getElem?_drop]
      rw [hdrop]
    · rw [if_neg h1, if_neg h1, if_neg h2, if_neg h2]

/-- Witness for C3: 193 pushes (k = 1) at the initial state, byte 0. -/
theorem C3_witness :
    (LatchRegister (pushBits setupPanel (List.replicate 193 1))).latchedFramebufferRgb 0 =
      directDecode (List.drop 1 (List.replicate 193 1)) 0 setupPanel.latchedFramebufferRgb 0 :=
  C3_overflow_uses_final_192 setupPanel rfl (by decide) 0 (by decide) (by decide) 1
    (List.replicate 193 1) (by simp) 0

/-- C8: from any full buffer state, a `ClearRow` followed by exactly 192
pushes and a latch commits the same framebuffer as just selecting the same
row and pushing the same 192 bits — the clear is behaviourally redundant. -/
theorem C8_clearRow_redundant (s : PanelState)
    (hc : s.shiftRegisterBitCount = 192) (ho : s.shiftRegisterOldestIndex < 192)
    (row : Int) (bs : List Int) (hlen : bs.length = 192) (i : Nat) :
    (LatchRegister (pushBits (ClearRow s row) bs)).latchedFramebufferRgb i =
      (LatchRegister (pushBits (SelectRow s row) bs)).latchedFramebufferRgb i := by
  have hCR : ClearRow s row = pushBits (SelectRow s row) (List.replicate 192 0) := by
    rw [ClearRow, clearRowLoop_eq_pushBits]
  have hct : (SelectRow s row).shiftRegisterBitCount = 192 := hc
  have hot : (SelectRow s row).shiftRegisterOldestIndex < 192 := ho
  have hinvz := pushBits_inv (List.replicate 192 0) (SelectRow s row) hct hot
  have hsel1 : (pushBits (ClearRow s row) bs).selectedRowPairIndex = Int.emod (row - 1) 16 := by
    rw [hCR, (pushBits_other_fields bs _).2,
      (pushBits_other_fields (List.replicate 192 0) _).2]
    rfl
  have hsel2 : (pushBits (SelectRow s row) bs).selectedRowPairIndex = Int.emod (row - 1) 16 := by
    rw [(pushBits_other_fields bs _).2]
    rfl
  have hfb1 : (pushBits (ClearRow s row) bs).latchedFramebufferRgb = s.latchedFramebufferRgb := by
    rw [hCR, (pushBits_other_fields bs _).1,
      (pushBits_other_fields (List.replicate 192 0) _).1]
    rfl
  have hfb2 : (pushBits (SelectRow s row) bs).latchedFramebufferRgb =
      s.latchedFramebufferRgb := by
    rw [(pushBits_other_fields bs _).1]
    rfl
  have hg : ∀ j, j < 192 → shiftRegisterGetBit (pushBits (ClearRow s row) bs) j =
      shiftRegisterGetBit (pushBits (SelectRow s row) bs) j := by
    intro j hj
    rw [hCR, getBit_pushBits bs _ hinvz.1 hinvz.2 j hj,
      getBit_pushBits bs (SelectRow s row) hct hot j hj]
    have hge : ¬ j + bs.length < 192 := by omega
    rw [if_neg hge, if_neg hge]
  rw [LatchRegister_fb, LatchRegister_fb, hsel1, hsel2, hfb1, hfb2]
  exact commitLoop_congr _ _ _ _ _ _ hg (fun _ => rfl) 32 le_rfl i

/-- Witness for C8: clear-then-push-192-ones versus select-then-push, at
the initial state, byte 0. -/
theorem C8_witness :
    (LatchRegister (pushBits (ClearRow setupPanel 1)
        (List.replicate 192 1))).latchedFramebufferRgb 0 =
      (LatchRegister (pushBits (SelectRow setupPanel 1)
        (List.replicate 192 1))).latchedFramebufferRgb 0 :=
  C8_clearRow_redundant setupPanel rfl (by decide) 1 (List.replicate 192 1) (by simp) 0

/-- Every byte of the latched framebuffer is a clean 1-bit value. -/
def FbClean (s : PanelState) : Prop :=
  ∀ i, s.latchedFramebufferRgb i = 0 ∨ s.latchedFramebufferRgb i = 1

/-- C10: after `setupPanel` every framebuffer byte is 0 or 1, and every
operation preserves this, whatever integers callers pass to `PushBit`. -/
theorem C10_framebuffer_bits_clean :
    FbClean setupPanel ∧
    (∀ s : PanelState, FbClean s →
      (∀ onoff : Int, FbClean (PushBit s onoff)) ∧
      (∀ row : Int, FbClean (SelectRow s row)) ∧
      FbClean (PrepareLatch s) ∧
      FbClean (LatchRegister s) ∧
      (∀ row : Int, FbClean (ClearRow s row))) := by
  have hpush : ∀ (s : PanelState) (bs : List Int), FbClean s → FbClean (pushBits s bs) := by
    intro s bs h i
    rw [(pushBits_other_fields bs s).1]
    exact h i
  refine ⟨fun i => Or.inl rfl, fun s h => ⟨?_, fun row i => h i, fun i => h i, ?_, ?_⟩⟩
  · intro onoff i
    rw [PushBit, (pushBit_other_fields s _).1]
    exact h i
  · intro i
    rw [LatchRegister_fb, commitLoop_full_apply]
    split_ifs
    · exact Nat.mod_two_eq_zero_or_one _
    · exact Nat.mod_two_eq_zero_or_one _
    · exact h i
  · intro row i
    rw [ClearRow, clearRowLoop_eq_pushBits]
    exact hpush (SelectRow s row) (List.replicate 192 0) (fun j => h j) i

/-- Witness for C10: the frame after a latch at the initial state is
clean. -/
theorem C10_witness : FbClean (LatchRegister setupPanel) :=
  (C10_framebuffer_bits_clean.2 setupPanel (fun i => Or.inl rfl)).2.2.2.1

/-! ### Hardware backend (`src/hardware/panel_hw.c`) and the physical panel -/

/-- Hardware backend state: the GPIO output pins driven by `panel_hw.c`
(row-address pins A–D, data pin INP, clock CLK, latch LAT), plus the
physical panel they drive.

The panel itself is not code of this repository.  Modelled from the spec:
`chain` is the physical fixed-depth 192-bit shift chain (index 0 = oldest
bit), pre-filled with zeros, and `hwFrame` is the frame the panel
displays, in the same flat byte layout as the emulator's framebuffer. -/
structure HwState where
  pinA : Bool
  pinB : Bool
  pinC : Bool
  pinD : Bool
  pinINP : Bool
  pinCLK : Bool
  pinLAT : Bool
  chain : List Nat
  hwFrame : Nat → Nat

/-- First block of `SelectRow` in `panel_hw.c`: set or clear pin A from
`row % 2` (C truncated remainder, `Int.tmod`). -/
def hwSelectRowA (s : HwState) (row : Int) : HwState :=
  if Int.tmod row 2 = 1 then { s with pinA := true } else { s with pinA := false }

/-- Second block of `SelectRow`: pin B from the bit of `row / 2`. -/
def hwSelectRowB (s : HwState) (row : Int) : HwState :=
  if Int.tmod row 2 = 1 then { s with pinB := true } else { s with pinB := false }

/-- Third block of `SelectRow`: pin C. -/
def hwSelectRowC (s : HwState) (row : Int) : HwState :=
  if Int.tmod row 2 = 1 then { s with pinC := true } else { s with pinC := false }

/-- Fourth block of `SelectRow`: pin D. -/
def hwSelectRowD (s : HwState) (row : Int) : HwState :=
  if Int.tmod row 2 = 1 then { s with pinD := true } else { s with pinD := false }

/-- `SelectRow` from `panel_hw.c`: pins A–D receive the successive low
bits of `row`, each block testing `row % 2` and then halving `row` with C
truncated division (`Int.tdiv`). -/
def hwSelectRow (s : HwState) (row : Int) : HwState :=
  hwSelectRowD
    (hwSelectRowC
      (hwSelectRowB (hwSelectRowA s row) (Int.tdiv row 2))
      (Int.tdiv (Int.tdiv row 2) 2))
    (Int.tdiv (Int.tdiv (Int.tdiv row 2) 2) 2)

/-- Modelled from the spec (§3, glossary): one shift of the physical
chain — the oldest bit is discarded and the new bit becomes the newest. -/
def hwChainShift (chain : List Nat) (b : Nat) : List Nat :=
  chain.tail ++ [b]

/-- `PushBit` from `panel_hw.c`: clear the clock, drive INP from `onoff`,
set the clock; the rising edge makes the panel shift in the INP value
(spec-modelled reaction of the chain). -/
def hwPushBit (s : HwState) (onoff : Int) : HwState :=
  let s := { s with pinCLK := false }
  let s := if onoff ≠ 0 then { s with pinINP := true } else { s with pinINP := false }
  { s with
    pinCLK := true
    chain := hwChainShift s.chain (if s.pinINP then 1 else 0) }

/-- `PrepareLatch` from `panel_hw.c`: drop the latch line. -/
def hwPrepareLatch (s : HwState) : HwState :=
  { s with pinLAT := false }

/-- The row address the panel sees on pins A–D (A is the least
significant bit). -/
def hwRowAddress (s : HwState) : Nat :=
  (if s.pinA then 1 else 0) + 2 * (if s.pinB then 1 else 0) +
    4 * (if s.pinC then 1 else 0) + 8 * (if s.pinD then 1 else 0)

/-- Bit `i` of the physical chain, logical index 0 = oldest. -/
def hwChainGet (s : HwState) (i : Nat) : Nat :=
  s.chain.getD i 0

/-- `LatchRegister` from `panel_hw.c`: raise the latch line; the panel
commits (modelled from the spec, §4.2: latching decodes the chain's
current 192 bits at the selected row address, with the §4.3 plane
layout shared with the emulator's decoder). -/
def hwLatchRegister (s : HwState) : HwState :=
  { s with
    pinLAT := true
    hwFrame := commitLoop (hwChainGet s) (hwRowAddress s) (hwRowAddress s + 16) s.hwFrame 32 }

/-- The `for` loop of the hardware `ClearRow`: `n` zero pushes. -/
def hwClearRowLoop (s : HwState) : Nat → HwState
  | 0 => s
  | n + 1 => hwClearRowLoop (hwPushBit s 0) n

/-- `ClearRow` from `panel_hw.c`: select the row, then push 192 zeros. -/
def hwClearRow (s : HwState) (row : Int) : HwState :=
  hwClearRowLoop (hwSelectRow s row) 192

/-- Hardware state after `setupPanel` in `panel_hw.c` (GPIO outputs
configured, reset-low) with the spec-modelled panel: chain pre-filled
with 192 zeros, frame dark. -/
def hwInitState : HwState where
  pinA := false
  pinB := false
  pinC := false
  pinD := false
  pinINP := false
  pinCLK := false
  pinLAT := false
  chain := List.replicate 192 0
  hwFrame := fun _ => 0

/-- One driver-level HAL call (the `panel.h` interface shared by the two
backends). -/
inductive DriverCall where
  | selectRow (row : Int)
  | pushBit (onoff : Int)
  | prepareLatch
  | latchRegister
  | clearRow (row : Int)

/-- Execute one call against the emulator backend. -/
def emuStep (s : PanelState) : DriverCall → PanelState
  | .selectRow row => SelectRow s row
  | .pushBit onoff => PushBit s onoff
  | .prepareLatch => PrepareLatch s
  | .latchRegister => LatchRegister s
  | .clearRow row => ClearRow s row

/-- Run a call sequence against the emulator backend. -/
def emuRun (s : PanelState) (cs : List DriverCall) : PanelState :=
  cs.foldl emuStep s

/-- Execute one call against the hardware backend. -/
def hwStep (s : HwState) : DriverCall → HwState
  | .selectRow row => hwSelectRow s row
  | .pushBit onoff => hwPushBit s onoff
  | .prepareLatch => hwPrepareLatch s
  | .latchRegister => hwLatchRegister s
  | .clearRow row => hwClearRow s row

/-- Run a call sequence against the hardware backend. -/
def hwRun (s : HwState) (cs : List DriverCall) : HwState :=
  cs.foldl hwStep s

/-- Increment the row argument of the row-typed calls (the emulator's
1-based convention relative to the hardware's address pins). -/
def bumpRow : DriverCall → DriverCall
  | .selectRow row => .selectRow (row + 1)
  | .clearRow row => .clearRow (row + 1)
  | c => c

/-- All row arguments in a sequence are non-negative (true of the game's
1-based calls). -/
def rowArgsNonneg (cs : List DriverCall) : Bool :=
  cs.all fun c => match c with
    | .selectRow row => decide (0 ≤ row)
    | .clearRow row => decide (0 ≤ row)
    | _ => true

/-! ### Hardware-emulator simulation lemmas -/

/-- `Int.emod` is the `%` of the `Mod` instance (used to hand goals to
`omega` in its preferred spelling). -/
theorem emod_eq_hmod (a b : Int) : Int.emod a b = a % b := rfl

/-- C truncated remainder of a cast natural by two. -/
theorem tmod_two_cast (n : Nat) : Int.tmod (n : Int) 2 = ((n % 2 : Nat) : Int) := by
  rw [show (2 : Int) = ((2 : Nat) : Int) from rfl, ← Int.ofNat_tmod]

/-- C truncated quotient of a cast natural by two. -/
theorem tdiv_two_cast (n : Nat) : Int.tdiv (n : Int) 2 = ((n / 2 : Nat) : Int) := by
  rw [show (2 : Int) = ((2 : Nat) : Int) from rfl, ← Int.ofNat_tdiv]

/-- Reading the shifted chain: index 191 is the new bit, the others see
what was one position newer before. -/
theorem hwChainShift_get (chain : List Nat) (hlen : chain.length = 192) (b : Nat) (i : Nat)
    (hi : i < 192) :
    (hwChainShift chain b).getD i 0 = if i = 191 then b else chain.getD (i + 1) 0 := by
  unfold hwChainShift
  have htail : chain.tail.length = 191 := by
    rw [List.length_tail, hlen]
  rw [List.getD_eq_getElem?_getD, List.getElem?_append, htail]
  by_cases h191 : i = 191
  · subst h191
    simp
  · rw [if_neg h191]
    have hcond : i < 191 := by omega
    rw [if_pos hcond, List.getElem?_tail chain i, List.getD_eq_getElem?_getD]

/-- Shifting keeps the chain at 192 bits. -/
theorem hwChainShift_length (chain : List Nat) (hlen : chain.length = 192) (b : Nat) :
    (hwChainShift chain b).length = 192 := by
  simp [hwChainShift, List.length_tail, hlen]

/-- Each `SelectRow` block sets only its own pin: pin A. -/
theorem hwSelectRowA_state (s : HwState) (row : Int) :
    (hwSelectRowA s row).pinA = decide (Int.tmod row 2 = 1) ∧
    (hwSelectRowA s row).pinB = s.pinB ∧ (hwSelectRowA s row).pinC = s.pinC ∧
    (hwSelectRowA s row).pinD = s.pinD ∧ (hwSelectRowA s row).chain = s.chain ∧
    (hwSelectRowA s row).hwFrame = s.hwFrame := by
  unfold hwSelectRowA
  split <;> rename_i hcond <;> simp [hcond]

/-- Each `SelectRow` block sets only its own pin: pin B. -/
theorem hwSelectRowB_state (s : HwState) (row : Int) :
    (hwSelectRowB s row).pinB = decide (Int.tmod row 2 = 1) ∧
    (hwSelectRowB s row).pinA = s.pinA ∧ (hwSelectRowB s row).pinC = s.pinC ∧
    (hwSelectRowB s row).pinD = s.pinD ∧ (hwSelectRowB s row).chain = s.chain ∧
    (hwSelectRowB s row).hwFrame = s.hwFrame := by
  unfold hwSelectRowB
  split <;> rename_i hcond <;> simp [hcond]

/-- Each `SelectRow` block sets only its own pin: pin C. -/
theorem hwSelectRowC_state (s : HwState) (row : Int) :
    (hwSelectRowC s row).pinC = decide (Int.tmod row 2 = 1) ∧
    (hwSelectRowC s row).pinA = s.pinA ∧ (hwSelectRowC s row).pinB = s.pinB ∧
    (hwSelectRowC s row).pinD = s.pinD ∧ (hwSelectRowC s row).chain = s.chain ∧
    (hwSelectRowC s row).hwFrame = s.hwFrame := by
  unfold hwSelectRowC
  split <;> rename_i hcond <;> simp [hcond]

/-- Each `SelectRow` block sets only its own pin: pin D. -/
theorem hwSelectRowD_state (s : HwState) (row : Int) :
    (hwSelectRowD s row).pinD = decide (Int.tmod row 2 = 1) ∧
    (hwSelectRowD s row).pinA = s.pinA ∧ (hwSelectRowD s row).pinB = s.pinB ∧
    (hwSelectRowD s row).pinC = s.pinC ∧ (hwSelectRowD s row).chain = s.chain ∧
    (hwSelectRowD s row).hwFrame = s.hwFrame := by
  unfold hwSelectRowD
  split <;> rename_i hcond <;> simp [hcond]

/-- `hwSelectRow` only drives the address pins. -/
theorem hwSelectRow_other_fields (h : HwState) (row : Int) :
    (hwSelectRow h row).chain = h.chain ∧ (hwSelectRow h row).hwFrame = h.hwFrame := by
  unfold hwSelectRow
  constructor
  · rw [(hwSelectRowD_state _ _).2.2.2.2.1, (hwSelectRowC_state _ _).2.2.2.2.1,
      (hwSelectRowB_state _ _).2.2.2.2.1, (hwSelectRowA_state _ _).2.2.2.2.1]
  · rw [(hwSelectRowD_state _ _).2.2.2.2.2, (hwSelectRowC_state _ _).2.2.2.2.2,
      (hwSelectRowB_state _ _).2.2.2.2.2, (hwSelectRowA_state _ _).2.2.2.2.2]

/-- For a non-negative row argument, the pins A–D encode `row mod 16`. -/
theorem hwSelectRow_address (h : HwState) (row : Int) (hrow : 0 ≤ row) :
    hwRowAddress (hwSelectRow h row) = Int.toNat (Int.emod row 16) := by
  obtain ⟨n, rfl⟩ : ∃ n : Nat, row = (n : Int) := ⟨row.toNat, (Int.toNat_of_nonneg hrow).symm⟩
  rw [emod_eq_hmod]
  unfold hwSelectRow hwRowAddress
  rw [(hwSelectRowD_state _ _).1, (hwSelectRowD_state _ _).2.1,
    (hwSelectRowD_state _ _).2.2.1, (hwSelectRowD_state _ _).2.2.2.1,
    (hwSelectRowC_state _ _).1, (hwSelectRowC_state _ _).2.1, (hwSelectRowC_state _ _).2.2.1,
    (hwSelectRowB_state _ _).1, (hwSelectRowB_state _ _).2.1, (hwSelectRowA_state _ _).1]
  simp only [tmod_two_cast, tdiv_two_cast, decide_eq_true_eq]
  split_ifs <;> omega

/-- `hwPushBit` shifts the normalised bit into the chain and leaves the
address pins and the frame alone. -/
theorem hwPushBit_state (h : HwState) (onoff : Int) :
    (hwPushBit h onoff).chain = hwChainShift h.chain (if onoff ≠ 0 then 1 else 0) ∧
    (hwPushBit h onoff).pinA = h.pinA ∧ (hwPushBit h onoff).pinB = h.pinB ∧
    (hwPushBit h onoff).pinC = h.pinC ∧ (hwPushBit h onoff).pinD = h.pinD ∧
    (hwPushBit h onoff).hwFrame = h.hwFrame := by
  by_cases h0 : onoff = 0 <;> simp [hwPushBit, h0]

/-- The pin address only depends on the four address pins. -/
theorem hwRowAddress_pins (h h' : HwState) (ha : h'.pinA = h.pinA) (hb : h'.pinB = h.pinB)
    (hc : h'.pinC = h.pinC) (hd : h'.pinD = h.pinD) :
    hwRowAddress h' = hwRowAddress h := by
  unfold hwRowAddress
  rw [ha, hb, hc, hd]

/-- Simulation relation between the hardware backend (with its
spec-modelled panel) and the emulator backend: the emulator's buffer is
full, the two 192-bit stores agree logically, the pin address equals the
emulator's masked row index, and the two frames agree byte for byte. -/
def HwSim (h : HwState) (s : PanelState) : Prop :=
  s.shiftRegisterBitCount = 192 ∧
  s.shiftRegisterOldestIndex < 192 ∧
  h.chain.length = 192 ∧
  (∀ i, i < 192 → hwChainGet h i = shiftRegisterGetBit s i) ∧
  hwRowAddress h = Int.toNat (Int.emod s.selectedRowPairIndex 16) ∧
  (∀ i, h.hwFrame i = s.latchedFramebufferRgb i)

/-- The two initial states are in simulation. -/
theorem hwSim_init : HwSim hwInitState setupPanel := by
  refine ⟨rfl, by decide, by simp [hwInitState], ?_, rfl, fun i => rfl⟩
  intro i hi
  show (List.replicate 192 0 : List Nat).getD i 0 = shiftRegisterGetBit setupPanel i
  rw [List.getD_eq_getElem?_getD, List.getElem?_replicate, if_pos hi]
  rfl

/-- Simulation step for `SelectRow`: a hardware `SelectRow(row)` matches
an emulator `SelectRow(row + 1)` when `row ≥ 0`. -/
theorem hwSim_selectRow (h : HwState) (s : PanelState) (hsim : HwSim h s)
    (row : Int) (hrow : 0 ≤ row) :
    HwSim (hwSelectRow h row) (SelectRow s (row + 1)) := by
  obtain ⟨hc, ho, hlen, hbits, haddr, hframe⟩ := hsim
  have hof := hwSelectRow_other_fields h row
  refine ⟨hc, ho, ?_, ?_, ?_, ?_⟩
  · show (hwSelectRow h row).chain.length = 192
    rw [hof.1]
    exact hlen
  · intro i hi
    show (hwSelectRow h row).chain.getD i 0 = _
    rw [hof.1]
    exact hbits i hi
  · rw [hwSelectRow_address h row hrow]
    show Int.toNat (Int.emod row 16) = Int.toNat (Int.emod (Int.emod (row + 1 - 1) 16) 16)
    have hsub : row + 1 - 1 = row := by ring
    rw [hsub]
    simp only [emod_eq_hmod]
    omega
  · intro i
    show (hwSelectRow h row).hwFrame i = _
    rw [hof.2]
    exact hframe i

/-- Simulation step for `PushBit`: both backends shift in the normalised
bit. -/
theorem hwSim_pushBit (h : HwState) (s : PanelState) (hsim : HwSim h s) (onoff : Int) :
    HwSim (hwPushBit h onoff) (PushBit s onoff) := by
  obtain ⟨hc, ho, hlen, hbits, haddr, hframe⟩ := hsim
  obtain ⟨hch, hpa, hpb, hpc, hpd, hfr⟩ := hwPushBit_state h onoff
  have hinv := pushBit_inv s (if onoff ≠ 0 then 1 else 0) hc ho
  refine ⟨hinv.1, hinv.2, ?_, ?_, ?_, ?_⟩
  · show (hwPushBit h onoff).chain.length = 192
    rw [hch]
    exact hwChainShift_length h.chain hlen _
  · intro i hi
    show (hwPushBit h onoff).chain.getD i 0 = _
    rw [hch, hwChainShift_get h.chain hlen _ i hi]
    rw [show PushBit s onoff = shiftRegisterPushBit s (if onoff ≠ 0 then 1 else 0) from rfl,
      getBit_pushBit_full s _ (by omega) ho i hi]
    by_cases h191 : i = 191
    · rw [if_pos h191, if_pos h191]
      by_cases h0 : onoff = 0 <;> simp [h0]
    · rw [if_neg h191, if_neg h191]
      exact hbits (i + 1) (by omega)
  · rw [hwRowAddress_pins h (hwPushBit h onoff) hpa hpb hpc hpd, haddr, PushBit,
      (pushBit_other_fields s _).2.1]
  · intro i
    show (hwPushBit h onoff).hwFrame i = _
    rw [hfr, PushBit, (pushBit_other_fields s _).1]
    exact hframe i

/-- Simulation step for `PrepareLatch`: only the latch line moves. -/
theorem hwSim_prepareLatch (h : HwState) (s : PanelState) (hsim : HwSim h s) :
    HwSim (hwPrepareLatch h) (PrepareLatch s) := by
  obtain ⟨hc, ho, hlen, hbits, haddr, hframe⟩ := hsim
  exact ⟨hc, ho, hlen, hbits, haddr, hframe⟩

/-- Simulation step for `LatchRegister`: both backends commit the same
decode of the same 192 bits at the same row address. -/
theorem hwSim_latch (h : HwState) (s : PanelState) (hsim : HwSim h s) :
    HwSim (hwLatchRegister h) (LatchRegister s) := by
  obtain ⟨hc, ho, hlen, hbits, haddr, hframe⟩ := hsim
  refine ⟨?_, ?_, hlen, hbits, ?_, ?_⟩
  · rw [(LatchRegister_other_fields s).2.2.1]
    exact hc
  · rw [(LatchRegister_other_fields s).2.1]
    exact ho
  · rw [hwRowAddress_pins h (hwLatchRegister h) rfl rfl rfl rfl,
      (LatchRegister_other_fields s).2.2.2]
    exact haddr
  · intro i
    show commitLoop (hwChainGet h) (hwRowAddress h) (hwRowAddress h + 16) h.hwFrame 32 i = _
    rw [haddr, LatchRegister_fb s]
    exact commitLoop_congr _ _ _ _ _ _ hbits hframe 32 le_rfl i

/-- Simulation for the 192 zero pushes of `ClearRow`. -/
theorem hwSim_clearRowLoop (n : Nat) : ∀ (h : HwState) (s : PanelState), HwSim h s →
    HwSim (hwClearRowLoop h n) (clearRowLoop s n) := by
  induction n with
  | zero => intro h s hsim; exact hsim
  | succ n ih => intro h s hsim; exact ih _ _ (hwSim_pushBit h s hsim 0)

/-- Simulation step for `ClearRow`, with the same `row + 1` shift as
`SelectRow`. -/
theorem hwSim_clearRow (h : HwState) (s : PanelState) (hsim : HwSim h s)
    (row : Int) (hrow : 0 ≤ row) :
    HwSim (hwClearRow h row) (ClearRow s (row + 1)) :=
  hwSim_clearRowLoop 192 _ _ (hwSim_selectRow h s hsim row hrow)

/-- Unfolding a run one call at a time (hardware). -/
theorem hwRun_cons (h : HwState) (c : DriverCall) (cs : List DriverCall) :
    hwRun h (c :: cs) = hwRun (hwStep h c) cs := rfl

/-- Unfolding a run one call at a time (emulator). -/
theorem emuRun_cons (s : PanelState) (c : DriverCall) (cs : List DriverCall) :
    emuRun s (c :: cs) = emuRun (emuStep s c) cs := rfl

/-- `hwStep` on a `clearRow` call. -/
theorem hwStep_clearRow (h : HwState) (row : Int) :
    hwStep h (DriverCall.clearRow row) = hwClearRow h row := rfl

/-- `emuStep` on a `clearRow` call. -/
theorem emuStep_clearRow (s : PanelState) (row : Int) :
    emuStep s (DriverCall.clearRow row) = ClearRow s row := rfl

/-- `bumpRow` on a `clearRow` call. -/
theorem bumpRow_clearRow (row : Int) :
    bumpRow (DriverCall.clearRow row) = DriverCall.clearRow (row + 1) := rfl

/-- Whole-run simulation: a hardware run matches the emulator run of the
row-shifted sequence. -/
theorem hwSim_run (cs : List DriverCall) : ∀ (h : HwState) (s : PanelState), HwSim h s →
    rowArgsNonneg cs = true → HwSim (hwRun h cs) (emuRun s (cs.map bumpRow)) := by
  induction cs with
  | nil => intro h s hsim _; exact hsim
  | cons c cs ih =>
    intro h s hsim hrows
    rw [List.map_cons]
    cases c with
    | selectRow row =>
      simp only [rowArgsNonneg, List.all_cons, Bool.and_eq_true, decide_eq_true_eq] at hrows
      exact ih _ _ (hwSim_selectRow h s hsim row hrows.1) hrows.2
    | pushBit onoff =>
      simp only [rowArgsNonneg, List.all_cons, Bool.and_eq_true] at hrows
      exact ih _ _ (hwSim_pushBit h s hsim onoff) hrows.2
    | prepareLatch =>
      simp only [rowArgsNonneg, List.all_cons, Bool.and_eq_true] at hrows
      exact ih _ _ (hwSim_prepareLatch h s hsim) hrows.2
    | latchRegister =>
      simp only [rowArgsNonneg, List.all_cons, Bool.and_eq_true] at hrows
      exact ih _ _ (hwSim_latch h s hsim) hrows.2
    | clearRow row =>
      simp only [rowArgsNonneg, List.all_cons, Bool.and_eq_true, decide_eq_true_eq] at hrows
      rw [hwRun_cons, emuRun_cons, hwStep_clearRow, bumpRow_clearRow, emuStep_clearRow]
      exact ih _ _ (hwSim_clearRow h s hsim row hrows.1) hrows.2

/-- The sequence SelectRow(1), 192 × PushBit(1), LatchRegister — the
canonical one-row-pair refresh of the driver loop. -/
def cexSeq : List DriverCall :=
  DriverCall.selectRow 1 ::
    (List.replicate 192 (DriverCall.pushBit 1) ++ [DriverCall.latchRegister])

/-- C9 fails on the code: the hardware `SelectRow` puts `row mod 16` on
the address pins while the emulator stores `(row - 1) mod 16`, so the
same driver sequence lights row-pair 1 on hardware but row-pair 0 on the
emulator — byte 0 (row 0, column 0, red) already differs. -/
theorem C9_counterexample :
    (emuRun setupPanel cexSeq).latchedFramebufferRgb 0 ≠
      (hwRun hwInitState cexSeq).hwFrame 0 := by
  decide

/-- C9 (amended): for every driver call sequence whose `SelectRow` /
`ClearRow` arguments are non-negative, the hardware backend's visible
frame after the run equals, byte for byte, the emulator backend's frame
after running the same sequence with every row argument incremented by
one (the emulator's 1-based row convention relative to the hardware's
address pins). -/
theorem C9_amended_backend_equiv (cs : List DriverCall)
    (hrows : rowArgsNonneg cs = true) (i : Nat) :
    (hwRun hwInitState cs).hwFrame i =
      (emuRun setupPanel (cs.map bumpRow)).latchedFramebufferRgb i :=
  (hwSim_run cs hwInitState setupPanel hwSim_init hrows).2.2.2.2.2 i

/-- Witness for the amended C9 on a two-call sequence. -/
theorem C9_witness :
    (hwRun hwInitState [DriverCall.selectRow 1, DriverCall.latchRegister]).hwFrame 0 =
      (emuRun setupPanel
        ([DriverCall.selectRow 1, DriverCall.latchRegister].map bumpRow)).latchedFramebufferRgb 0 :=
  C9_amended_backend_equiv [DriverCall.selectRow 1, DriverCall.latchRegister] (by decide) 0
